import Mathlib

/-!
Shallow embedding of `app/search.py` from the bm-api repository (BT search
logic and payload assembly).

Modelling conventions:
* Python strings are Lean `String`s (lists of Unicode characters).
* MongoDB documents are ordered association lists from field names to
  `Value`s; a stored null is `Value.vNone`, numbers are modelled by
  `Value.vInt` and by decimal strings, text by `Value.vStr`.
* The MongoDB store is a function from collection name and query to
  `Option (List RawDoc)`: `none` models an exception raised inside
  `collection.find`/`list(cursor)` (caught in `_query_collection`), and
  `some docs` the fetched documents already in the store-side
  `_id`-descending order with the projection applied.
* Python floats are modelled as rationals; all float values arising here
  (integers, parsed decimal literals, and /1024 results) are exactly
  representable, `inf`/`nan` literals are not modelled.
* Unicode-aware character classes (`isalpha`, `isdigit`, `isalnum`, `\w`)
  are modelled by their ASCII cores; every call site in the source guards
  them with an `isascii` check or applies them to ASCII-relevant data.
* The in-batch worker pool (`ThreadPoolExecutor`/`as_completed`) is
  modelled with the batch's list order as the completion order; batches
  themselves are processed sequentially as in the source.
-/

namespace BtSearch

/-- Python `str.isspace` (and regex `\s`): the Unicode whitespace set. -/
def pyIsSpace (c : Char) : Bool :=
  decide (c ∈ [' ', '\t', '\n', '\r', '\x0b', '\x0c', '\x1c', '\x1d', '\x1e',
    '\x1f', '\x85', '\xa0', ' ', ' ', ' ', ' ', ' ',
    ' ', ' ', ' ', ' ', ' ', ' ', ' ',
    ' ', ' ', ' ', ' ', '　'])

/-- Python `str.isascii`, per character. -/
def isAsciiChar (c : Char) : Bool := decide (c.toNat < 128)

/-- Model of Python `str.lower` (ASCII lowering). -/
def lowerChars (l : List Char) : List Char := l.map Char.toLower

def lowerS (s : String) : String := String.mk (lowerChars s.data)

/-- Model of Python `str.upper` (ASCII uppering). -/
def upperS (s : String) : String := String.mk (s.data.map Char.toUpper)

/-- `startsWithChars pat l`: `pat` is an initial segment of `l`. -/
def startsWithChars : List Char → List Char → Bool
  | [], _ => true
  | _ :: _, [] => false
  | p :: ps, c :: cs => p == c && startsWithChars ps cs

/-- Python substring test `needle in hay`, on character lists. -/
def containsChars (hay needle : List Char) : Bool :=
  match hay with
  | [] => needle.isEmpty
  | _ :: t => startsWithChars needle hay || containsChars t needle

/-- Python substring test `needle in hay` on strings. -/
def containsS (hay needle : String) : Bool := containsChars hay.data needle.data

/-- Python `str.strip()` on character lists. -/
def stripChars (l : List Char) : List Char :=
  ((l.dropWhile pyIsSpace).reverse.dropWhile pyIsSpace).reverse

/-- Python `str.strip()`. -/
def pyStrip (s : String) : String := String.mk (stripChars s.data)

/-- Code-point lexicographic order on character lists (Python string `<=`). -/
def charsLe : List Char → List Char → Bool
  | [], _ => true
  | _ :: _, [] => false
  | a :: as, b :: bs => if a.toNat = b.toNat then charsLe as bs else decide (a.toNat < b.toNat)

/-- A MongoDB field value, as far as this module inspects one. -/
inductive Value where
  | vNone
  | vInt (n : Int)
  | vStr (s : String)
deriving DecidableEq, Repr

/-- A raw document: ordered field/value pairs. -/
abbrev RawDoc := List (String × Value)

/-- Dictionary lookup (`key in doc` / `doc[key]` / `doc.get(key)`). -/
def dictGet : RawDoc → String → Option Value
  | [], _ => none
  | (k, v) :: rest, key => if k = key then some v else dictGet rest key

/-- Python `str()` of the modelled values. -/
def pyStr : Value → String
  | .vNone => "None"
  | .vInt n => toString n
  | .vStr s => s

/-- `INVALID_TEXT_VALUES` from the source. -/
def INVALID_TEXT_VALUES : List String := ["", "none", "null"]

/-- `_clean_text`. -/
def clean_text (value : Value) : String :=
  match value with
  | .vNone => ""
  | v =>
    let text := pyStrip (pyStr v)
    if lowerS text ∈ INVALID_TEXT_VALUES then "" else text

def MAGNET_KEYS : List String := ["magnet", "Magnet Links"]
def TITLE_KEYS : List String := ["title", "Title", "Movie Name"]
def NUMBER_KEYS : List String := ["number", "Number"]
def SIZE_KEYS : List String := ["size_mb", "size", "Movie Size"]

/-- `_first_present`: the first listed key present in the document whose
value is neither `None` nor the empty string; `None` when no key
qualifies (the Python function returns `None`). -/
def first_present (doc : RawDoc) : List String → Value
  | [] => .vNone
  | k :: ks =>
    match dictGet doc k with
    | some v => if v ≠ .vNone ∧ v ≠ .vStr "" then v else first_present doc ks
    | none => first_present doc ks

/-- `_compose_title`. -/
def compose_title (number title : Value) (brand_label : Option String) : String :=
  let number_str := clean_text number
  let title_str0 := clean_text title
  let title_str :=
    match brand_label with
    | some b =>
      if title_str0 ≠ "" ∧ b ≠ "" ∧ containsS title_str0 b = false then
        pyStrip (b ++ " " ++ title_str0)
      else title_str0
    | none => title_str0
  if number_str ≠ "" then
    if title_str ≠ "" then
      if containsS title_str number_str then title_str
      else pyStrip (number_str ++ " " ++ title_str)
    else number_str
  else if title_str ≠ "" then title_str else "No Title"

/-- Decimal digits to a natural number. -/
def digitsToNat (l : List Char) : Nat := l.foldl (fun a c => a * 10 + (c.toNat - 48)) 0

/-- Python `int(str)` (surrounding whitespace, an optional sign, digits). -/
def pyParseInt (s : String) : Option Int :=
  let l := stripChars s.data
  let p : Int × List Char :=
    match l with
    | '+' :: t => (1, t)
    | '-' :: t => (-1, t)
    | _ => (1, l)
  if p.2 ≠ [] ∧ p.2.all Char.isDigit then some (p.1 * (digitsToNat p.2 : Int))
  else none

def isHexDigitChar (c : Char) : Bool :=
  c.isDigit || decide ('a' ≤ c ∧ c ≤ 'f') || decide ('A' ≤ c ∧ c ≤ 'F')

def hexDigitVal (c : Char) : Nat :=
  if c.isDigit then c.toNat - 48
  else if decide ('a' ≤ c ∧ c ≤ 'f') then c.toNat - 87
  else c.toNat - 55

/-- Python `int(s, 16)`, modelled on its plain hex-digit core (the `_id`
fallback feeds it the tail of an ObjectId hex string). -/
def parseHexNat (l : List Char) : Option Nat :=
  if l ≠ [] ∧ l.all isHexDigitChar then
    some (l.foldl (fun a c => a * 16 + hexDigitVal c) 0)
  else none

/-- `_extract_numeric_id`. -/
def extract_numeric_id (doc : RawDoc) : Int :=
  let fromKey : String → Option Int := fun k =>
    match dictGet doc k with
    | some v => pyParseInt (pyStr v)
    | none => none
  match fromKey "tid" with
  | some n => n
  | none =>
    match fromKey "id" with
    | some n => n
    | none =>
      match dictGet doc "_id" with
      | none => 0
      | some fb =>
        let s := (pyStr fb).data
        match parseHexNat (s.drop (s.length - 8)) with
        | some n => (n : Int)
        | none => 0

/-- The unit alternatives of `SIZE_PATTERN`, in alternation order. -/
def SIZE_UNITS : List String := ["GB", "MB", "KB", "GIB", "MIB", "KIB"]

/-- Case-insensitive match of a pattern at the head of a text (regex
`IGNORECASE` literal matching, ASCII lowering). -/
def matchCI : List Char → List Char → Bool
  | [], _ => true
  | _ :: _, [] => false
  | p :: ps, c :: cs => p.toLower == c.toLower && matchCI ps cs

/-- The unit alternation of `SIZE_PATTERN` tried at the head of `l`. -/
def matchUnit (l : List Char) : Option String :=
  SIZE_UNITS.find? (fun u => matchCI u.data l)

def takeDigits (l : List Char) : List Char × List Char :=
  (l.takeWhile Char.isDigit, l.dropWhile Char.isDigit)

/-- One attempt of `SIZE_PATTERN` (`(\d+(?:\.\d+)?)\s*(GB|MB|KB|GIB|MIB|KIB)`,
IGNORECASE) at the current position: greedy digits, an optional fraction
(taken only when a digit follows the dot), `\s*`, then a unit.  The match
is carried as (digits of group 1 with the dot removed, fraction length,
unit), so that `float(group(1))` is the first component divided by ten to
the second. -/
def sizeMatchHere (l : List Char) : Option (Nat × Nat × String) :=
  let ip := (takeDigits l).1
  let r1 := (takeDigits l).2
  if ip.isEmpty then none
  else
    let fr : List Char × List Char :=
      match r1 with
      | '.' :: t => if (takeDigits t).1.isEmpty then ([], r1) else takeDigits t
      | _ => ([], r1)
    let r3 := fr.2.dropWhile pyIsSpace
    match matchUnit r3 with
    | some u => some (digitsToNat (ip ++ fr.1), fr.1.length, u)
    | none => none

/-- Leftmost `re.search` of `SIZE_PATTERN` over the text. -/
def sizeSearch : List Char → Option (Nat × Nat × String)
  | [] => none
  | c :: t =>
    match sizeMatchHere (c :: t) with
    | some r => some r
    | none => sizeSearch t

/-- `_extract_size_from_text`. -/
def extract_size_from_text (text : String) : ℚ :=
  if text = "" then 0
  else
    match sizeSearch text.data with
    | none => 0
    | some m =>
      let value : ℚ := (m.1 : ℚ) / (10 : ℚ) ^ m.2.1
      let u := upperS m.2.2
      if containsS u "G" then value * 1024
      else if containsS u "M" then value
      else if containsS u "K" then value / 1024
      else 0

def BTIH_TAG : List Char := "urn:btih:".data

/-- Scan of `urn:btih:([a-zA-Z0-9]{32,40})` (IGNORECASE): the leftmost
position where the tag matches case-insensitively and is followed by at
least 32 alphanumeric characters; the greedy group takes at most 40. -/
def btihScan : List Char → Option (List Char)
  | [] => none
  | c :: t =>
    if matchCI BTIH_TAG (c :: t) then
      let run := ((c :: t).drop 9).takeWhile Char.isAlphanum
      if 32 ≤ run.length then some (run.take 40)
      else btihScan t
    else btihScan t

/-- `_clean_magnet`. -/
def clean_magnet (magnet_link : String) : String :=
  if magnet_link = "" then ""
  else
    match btihScan magnet_link.data with
    | some h => "magnet:?xt=urn:btih:" ++ String.mk h
    | none => magnet_link

/-- Python `float(v)` on the modelled values: an optional sign, a decimal
literal with optional fraction, and an optional exponent (whitespace
stripped); `None` is not castable. -/
def pyFloatParse (s : String) : Option ℚ :=
  let l0 := stripChars s.data
  let sp : ℚ × List Char :=
    match l0 with
    | '+' :: t => (1, t)
    | '-' :: t => (-1, t)
    | _ => (1, l0)
  let ip := (takeDigits sp.2).1
  let r1 := (takeDigits sp.2).2
  let fr : Option (List Char) × List Char :=
    match r1 with
    | '.' :: t => (some (takeDigits t).1, (takeDigits t).2)
    | _ => (none, r1)
  let mantOk :=
    !ip.isEmpty || (match fr.1 with | some d => !d.isEmpty | none => false)
  if !mantOk then none
  else
    let mant : ℚ :=
      (digitsToNat ip : ℚ) +
        (match fr.1 with
         | some d => (digitsToNat d : ℚ) / ((10 : ℚ) ^ d.length)
         | none => 0)
    match fr.2 with
    | [] => some (sp.1 * mant)
    | 'e' :: t =>
      let es : Int × List Char :=
        match t with
        | '+' :: u => (1, u)
        | '-' :: u => (-1, u)
        | _ => (1, t)
      let ed := (takeDigits es.2).1
      if ed.isEmpty || !(takeDigits es.2).2.isEmpty then none
      else some (sp.1 * mant * (10 : ℚ) ^ (es.1 * (digitsToNat ed : Int)))
    | 'E' :: t =>
      let es : Int × List Char :=
        match t with
        | '+' :: u => (1, u)
        | '-' :: u => (-1, u)
        | _ => (1, t)
      let ed := (takeDigits es.2).1
      if ed.isEmpty || !(takeDigits es.2).2.isEmpty then none
      else some (sp.1 * mant * (10 : ℚ) ^ (es.1 * (digitsToNat ed : Int)))
    | _ => none

def pyFloat : Value → Option ℚ
  | .vNone => none
  | .vInt n => some (n : ℚ)
  | .vStr s => pyFloatParse s

/-- The key scan of `_resolve_size_mb`: the first present, non-missing,
float-castable size alias wins; uncastable values fall through to the
next alias. -/
def resolveSizeKeys (doc : RawDoc) : List String → String → ℚ
  | [], fb => extract_size_from_text fb
  | k :: ks, fb =>
    match dictGet doc k with
    | some v =>
      if v ≠ .vNone ∧ v ≠ .vStr "" then
        match pyFloat v with
        | some x => x
        | none => resolveSizeKeys doc ks fb
      else resolveSizeKeys doc ks fb
    | none => resolveSizeKeys doc ks fb

/-- `_resolve_size_mb`. -/
def resolve_size_mb (doc : RawDoc) (fallback_text : String) : ℚ :=
  resolveSizeKeys doc SIZE_KEYS fallback_text

/-- Python `round(x, 2)` on the rational model (round-half-even). -/
def roundHalfEven (q : ℚ) : Int :=
  let f := ⌊q⌋
  let r := q - f
  if r < 1/2 then f
  else if 1/2 < r then f + 1
  else if f % 2 = 0 then f else f + 1

def pyRound2 (q : ℚ) : ℚ := (roundHalfEven (q * 100) : ℚ) / 100

/-- Regex `\w` on its ASCII core. -/
def isWordChar (c : Char) : Bool := c.isAlphanum || c == '_'

/-- `re.search(r"[-_]C\b", title_upper)`: some position holds `-` or `_`,
then `C`, followed by a non-word character or the end of the text. -/
def hasDashCBoundary : List Char → Bool
  | [] => false
  | [_] => false
  | a :: b :: rest =>
    (decide (a = '-' ∨ a = '_') && b == 'C' &&
      (match rest with | [] => true | r :: _ => !isWordChar r)) ||
    hasDashCBoundary (b :: rest)

/-- `_classify`. -/
def classify (collection_name : String) (final_title : String) : Bool × Bool × Bool :=
  let name := lowerS collection_name
  let c0 := containsS name "chinese" || containsS name "domestic"
  let u0 := ["codeless", "domestic", "no_mosaic", "korean", "nomosaic"].any
    (fun k => containsS name k)
  let h0 := containsS name "4k"
  let title_upper := upperS final_title
  let c1 := c0 || containsS final_title "中字" || hasDashCBoundary title_upper.data
  let u1 := u0 || ["无码", "破解", "流出"].any (fun k => containsS final_title k)
  let u2 := u1 || containsS title_upper "FC2"
  let h1 := h0 || containsS title_upper "4K"
  (c1, u2, h1)

/-- The canonical result entity (`CanonicalResult`): the payload dict built
by `_document_to_payload`. -/
structure Payload where
  id : Int
  site : String
  table : String
  size_mb : ℚ
  seeders : Nat
  title : String
  number : String
  chinese : Bool
  uc : Bool
  uhd : Bool
  free : Bool
  download_url : String
deriving DecidableEq, Repr

/-- The fixed brand label of `_document_to_payload`. -/
def BRAND_LABEL : String := "[色花堂]"

/-- `_document_to_payload`. -/
def document_to_payload (doc : RawDoc) (collection_name : String) : Payload :=
  let raw_title := first_present doc TITLE_KEYS
  let raw_number := first_present doc NUMBER_KEYS
  let final_title := compose_title raw_number raw_title (some BRAND_LABEL)
  let magnet := clean_magnet (clean_text (first_present doc MAGNET_KEYS))
  let size := pyRound2 (resolve_size_mb doc final_title)
  let flags := classify collection_name final_title
  { id := extract_numeric_id doc
    site := "Sehuatang"
    table := collection_name
    size_mb := size
    seeders := 999
    title := final_title
    number := clean_text raw_number
    chinese := flags.1
    uc := flags.2.1
    uhd := flags.2.2
    free := true
    download_url := magnet }

/-- `_should_skip_document`. -/
def should_skip_document (doc : RawDoc) (seen_magnets seen_titles : List String) :
    Bool × String × String :=
  let magnet := clean_magnet (clean_text (first_present doc MAGNET_KEYS))
  let title := clean_text (first_present doc TITLE_KEYS)
  if magnet = "" then (true, "", "")
  else if magnet ∈ seen_magnets then (true, "", "")
  else if title ≠ "" ∧ title ∈ seen_titles then (true, "", "")
  else (false, magnet, title)

/-- The document loop of `_query_collection`: local (within-collection)
deduplication, accumulating payloads in document order. -/
def localDedup (collection_name : String) :
    List RawDoc → List String → List String → List Payload
  | [], _, _ => []
  | doc :: docs, seen_magnets, seen_titles =>
    let s := should_skip_document doc seen_magnets seen_titles
    if s.1 then localDedup collection_name docs seen_magnets seen_titles
    else
      document_to_payload doc collection_name ::
        localDedup collection_name docs (s.2.1 :: seen_magnets)
          (if s.2.2 ≠ "" then s.2.2 :: seen_titles else seen_titles)

/-- The characters Python `re.escape` escapes. -/
def RE_SPECIAL : List Char :=
  ['(', ')', '[', ']', '\x7b', '\x7d', '?', '*', '+', '-', '|', '^', '$',
   '\\', '.', '&', '~', '#', ' ', '\t', '\n', '\r', '\x0b', '\x0c']

/-- Python `re.escape`. -/
def re_escape (s : String) : String :=
  String.mk (s.data.flatMap (fun c => if c ∈ RE_SPECIAL then ['\\', c] else [c]))

/-- A partition query as built by this module, carrying its pattern text:
the fuzzy title-or-number regex or the strict number regex. -/
inductive MongoQuery where
  | orTitleNumberRegex (pat : String)
  | numberRegex (pat : String)
deriving DecidableEq, Repr

/-- `_build_query`. -/
def build_query (keyword : String) : MongoQuery :=
  .orTitleNumberRegex (".*" ++ re_escape keyword ++ ".*")

/-- `_build_number_query`. -/
def build_number_query (keyword : String) : MongoQuery :=
  let stripped := keyword.data.filter (fun c => !pyIsSpace c)
  let escaped := re_escape (String.mk stripped)
  let sanitized := stripped.filter (fun c => c != '-' && c != '_')
  if sanitized ≠ [] ∧ sanitized.all Char.isAlpha then
    .numberRegex ("^" ++ escaped ++ "[-_]?\\d")
  else .numberRegex ("^" ++ escaped)

/-- `_should_strict_number_search`. -/
def should_strict_number_search (keyword : String) : Bool :=
  let stripped := keyword.data.filter (fun c => !pyIsSpace c)
  if stripped.isEmpty then false
  else if !stripped.all isAsciiChar then false
  else
    let sanitized := stripped.filter (fun c => c != '-' && c != '_')
    if !(!sanitized.isEmpty && sanitized.all Char.isAlphanum) then false
    else
      let has_alpha := sanitized.any Char.isAlpha
      let has_digit := sanitized.any Char.isDigit
      if has_alpha && has_digit then true
      else if (!sanitized.isEmpty && sanitized.all Char.isAlpha) &&
          decide (2 ≤ sanitized.length) && decide (sanitized.length ≤ 6) then true
      else false

/-- The external store (see the module docstring). -/
def Store := String → MongoQuery → Option (List RawDoc)

/-- `_query_collection`: a store exception yields an empty contribution. -/
def query_collection (store : Store) (collection_name : String) (query : MongoQuery) :
    List Payload :=
  match store collection_name query with
  | none => []
  | some docs => localDedup collection_name docs [] []

/-- The loop of `_chunked_collections`. -/
def chunkedGo (chunk_size : Nat) : List String → List String → List (List String)
  | [], chunk => if chunk.isEmpty then [] else [chunk]
  | name :: rest, chunk =>
    let c := chunk ++ [name]
    if c.length = chunk_size then c :: chunkedGo chunk_size rest []
    else chunkedGo chunk_size rest c

/-- `_chunked_collections`. -/
def chunked_collections (collections : List String) (chunk_size : Nat) :
    List (List String) :=
  chunkedGo chunk_size collections []

/-- The sort key of `_execute_search`: the Python tuple
`(keyword_lower not in number_lower, number == "", number_lower)`. -/
def sortKey (keyword : String) (x : Payload) : Bool × Bool × List Char :=
  (!containsChars (lowerChars x.number.data) (lowerChars keyword.data),
   x.number == "",
   lowerChars x.number.data)

/-- Lexicographic comparison of sort keys (`False < True` on booleans,
code-point order on strings): the relation of the stable sort. -/
def keyLe (a b : Bool × Bool × List Char) : Bool :=
  if a.1 ≠ b.1 then !a.1
  else if a.2.1 ≠ b.2.1 then !a.2.1
  else charsLe a.2.2 b.2.2

def payloadLe (keyword : String) (x y : Payload) : Bool :=
  keyLe (sortKey keyword x) (sortKey keyword y)

/-- The accumulated `raw_results` of `_execute_search`: batches processed
sequentially, each partition of a batch contributing its local result
list once. -/
def rawResults (store : Store) (tables : List String) (batch_size : Nat)
    (query : MongoQuery) : List Payload :=
  (chunked_collections tables (max 1 batch_size)).flatMap
    (fun batch => batch.flatMap (fun name => query_collection store name query))

/-- The global-deduplication loop of `_execute_search`: first-seen wins per
non-empty `download_url`. -/
def globalDedup : List Payload → List String → List Payload
  | [], _ => []
  | item :: rest, seen =>
    let magnet := item.download_url
    if magnet ≠ "" ∧ magnet ∉ seen then item :: globalDedup rest (magnet :: seen)
    else globalDedup rest seen

/-- `_execute_search` (`page` and `label` are logged only). -/
def execute_search (store : Store) (tables : List String) (batch_size : Nat)
    (keyword : String) (page : Nat) (query : MongoQuery) (label : String) :
    List Payload :=
  (globalDedup (rawResults store tables batch_size query) []).mergeSort
    (payloadLe keyword)

/-- The `{total, data}` response of `search_in_tables`. -/
structure SearchResult where
  total : Nat
  data : List Payload
deriving DecidableEq, Repr

/-- `search_in_tables`. -/
def search_in_tables (store : Store) (tables : List String) (batch_size : Nat)
    (keyword : String) (page : Nat) : SearchResult :=
  let kw := pyStrip keyword
  if kw = "" then ⟨0, []⟩
  else if tables.isEmpty then ⟨0, []⟩
  else if should_strict_number_search kw then
    let strict_results :=
      execute_search store tables batch_size kw page (build_number_query kw) "number-prefix"
    if strict_results.isEmpty then
      let r := execute_search store tables batch_size kw page (build_query kw) "fuzzy"
      ⟨r.length, r⟩
    else ⟨strict_results.length, strict_results⟩
  else
    let r := execute_search store tables batch_size kw page (build_query kw) "fuzzy"
    ⟨r.length, r⟩

/-- The fuzzy-only search referenced by the strict-fallback law:
`search_in_tables` with its strict phase removed, i.e. exactly the
source's fallback branch (entry guards included). -/
def fuzzy_only_search (store : Store) (tables : List String) (batch_size : Nat)
    (keyword : String) (page : Nat) : SearchResult :=
  let kw := pyStrip keyword
  if kw = "" then ⟨0, []⟩
  else if tables.isEmpty then ⟨0, []⟩
  else
    let r := execute_search store tables batch_size kw page (build_query kw) "fuzzy"
    ⟨r.length, r⟩

/-- The (collection, query) find calls issued by `search_in_tables`, in
issue order: it mirrors the control flow of the source, each executed
phase querying every configured table once. -/
def search_calls (store : Store) (tables : List String) (batch_size : Nat)
    (keyword : String) (page : Nat) : List (String × MongoQuery) :=
  let kw := pyStrip keyword
  if kw = "" then []
  else if tables.isEmpty then []
  else if should_strict_number_search kw then
    let sq := build_number_query kw
    let strict_results :=
      execute_search store tables batch_size kw page sq "number-prefix"
    if strict_results.isEmpty then
      tables.map (fun n => (n, sq)) ++ tables.map (fun n => (n, build_query kw))
    else tables.map (fun n => (n, sq))
  else tables.map (fun n => (n, build_query kw))

/-! ### Order lemmas for the sort relation -/

theorem charsLe_refl : ∀ l : List Char, charsLe l l = true
  | [] => rfl
  | a :: as => by simp [charsLe, charsLe_refl as]

theorem charsLe_total : ∀ a b : List Char, charsLe a b || charsLe b a
  | [], _ => by simp [charsLe]
  | _ :: _, [] => by simp [charsLe]
  | a :: as, b :: bs => by
    simp only [charsLe]
    rcases Nat.lt_trichotomy a.toNat b.toNat with h | h | h
    · simp [Nat.ne_of_lt h, h]
    · simpa [h] using charsLe_total as bs
    · simp only [Bool.or_eq_true]
      right
      simp [Nat.ne_of_lt h, h]

theorem charsLe_trans : ∀ a b c : List Char,
    charsLe a b = true → charsLe b c = true → charsLe a c = true
  | [], _, _, _, _ => rfl
  | _ :: _, [], _, h, _ => by simp [charsLe] at h
  | _ :: _, _ :: _, [], _, h => by simp [charsLe] at h
  | a :: as, b :: bs, c :: cs, h1, h2 => by
    simp only [charsLe] at h1 h2 ⊢
    by_cases e1 : a.toNat = b.toNat <;> by_cases e2 : b.toNat = c.toNat
    · rw [if_pos e1] at h1
      rw [if_pos e2] at h2
      rw [if_pos (e1.trans e2)]
      exact charsLe_trans as bs cs h1 h2
    · simp only [if_neg e2] at h2
      have l2 : b.toNat < c.toNat := by simpa using h2
      have hac : a.toNat < c.toNat := e1 ▸ l2
      simp [Nat.ne_of_lt hac, hac]
    · simp only [if_neg e1] at h1
      have l1 : a.toNat < b.toNat := by simpa using h1
      have hac : a.toNat < c.toNat := e2 ▸ l1
      simp [Nat.ne_of_lt hac, hac]
    · simp only [if_neg e1] at h1
      simp only [if_neg e2] at h2
      have l1 : a.toNat < b.toNat := by simpa using h1
      have l2 : b.toNat < c.toNat := by simpa using h2
      have : a.toNat < c.toNat := Nat.lt_trans l1 l2
      simp [Nat.ne_of_lt this, this]

theorem keyLe_refl (a : Bool × Bool × List Char) : keyLe a a = true := by
  simp [keyLe, charsLe_refl]

theorem keyLe_total (a b : Bool × Bool × List Char) : keyLe a b || keyLe b a := by
  obtain ⟨a1, a2, a3⟩ := a
  obtain ⟨b1, b2, b3⟩ := b
  simp only [keyLe]
  by_cases h1 : a1 = b1
  · by_cases h2 : a2 = b2
    · simpa [h1, h2] using charsLe_total a3 b3
    · subst h1; cases a2 <;> cases b2 <;> simp_all
  · cases a1 <;> cases b1 <;> simp_all

theorem keyLe_trans (a b c : Bool × Bool × List Char)
    (h1 : keyLe a b = true) (h2 : keyLe b c = true) : keyLe a c = true := by
  obtain ⟨a1, a2, a3⟩ := a
  obtain ⟨b1, b2, b3⟩ := b
  obtain ⟨c1, c2, c3⟩ := c
  simp only [keyLe] at h1 h2 ⊢
  cases a1 <;> cases b1 <;> cases c1 <;>
    cases a2 <;> cases b2 <;> cases c2 <;>
      simp_all <;> exact charsLe_trans a3 b3 c3 h1 h2

theorem payloadLe_total (kw : String) (x y : Payload) :
    payloadLe kw x y || payloadLe kw y x := keyLe_total _ _

theorem payloadLe_trans (kw : String) (x y z : Payload)
    (h1 : payloadLe kw x y = true) (h2 : payloadLe kw y z = true) :
    payloadLe kw x z = true := keyLe_trans _ _ _ h1 h2

/-! ### Whitespace-stripping lemmas -/

theorem dropWhile_dropWhile (p : α → Bool) (l : List α) :
    (l.dropWhile p).dropWhile p = l.dropWhile p := by
  induction l with
  | nil => rfl
  | cons a t ih =>
    by_cases h : p a
    · simpa [List.dropWhile_cons, h] using ih
    · simp [List.dropWhile_cons, h]

theorem head_not_of_dropWhile_self {p : α → Bool} {l : List α} {a : α} {t : List α}
    (h : l.dropWhile p = l) (he : l = a :: t) : p a = false := by
  subst he
  by_cases hp : p a
  · rw [List.dropWhile_cons_of_pos hp] at h
    have := (List.dropWhile_sublist p (l := t)).length_le
    have := congrArg List.length h
    simp at this
    omega
  · simpa using hp

theorem stripChars_front (l : List Char) :
    (stripChars l).dropWhile pyIsSpace = stripChars l := by
  unfold stripChars
  set m := l.dropWhile pyIsSpace with hm
  have hmm : m.dropWhile pyIsSpace = m := dropWhile_dropWhile _ _
  set w := m.reverse.dropWhile pyIsSpace with hw
  obtain ⟨t, ht⟩ : w <:+ m.reverse := List.dropWhile_suffix _
  rcases he : w.reverse with _ | ⟨a, r⟩
  · simp [he]
  · have hmw : m = a :: (r ++ t.reverse) := by
      have : m = w.reverse ++ t.reverse := by
        rw [← List.reverse_append, ht, List.reverse_reverse]
      rw [this, he]; simp
    have hna : pyIsSpace a = false := head_not_of_dropWhile_self hmm hmw
    exact List.dropWhile_cons_of_neg (by simp [hna])

theorem stripChars_back (l : List Char) :
    (stripChars l).reverse.dropWhile pyIsSpace = (stripChars l).reverse := by
  unfold stripChars
  rw [List.reverse_reverse]
  exact dropWhile_dropWhile _ _

theorem stripChars_idem (l : List Char) : stripChars (stripChars l) = stripChars l := by
  conv_lhs => rw [stripChars]
  rw [stripChars_front, stripChars_back, List.reverse_reverse]

theorem pyStrip_idem (s : String) : pyStrip (pyStrip s) = pyStrip s := by
  unfold pyStrip
  exact congrArg String.mk (stripChars_idem s.data)

theorem stripChars_of_all_space {l : List Char} (h : l.all pyIsSpace = true) :
    stripChars l = [] := by
  have h1 : l.dropWhile pyIsSpace = [] := by
    rw [List.dropWhile_eq_nil_iff]
    intro x hx
    exact List.all_eq_true.mp h x hx
  simp [stripChars, h1]

theorem stripChars_eq_self_of {l : List Char}
    (h1 : ∀ a, l.head? = some a → pyIsSpace a = false)
    (h2 : ∀ a, l.getLast? = some a → pyIsSpace a = false) :
    stripChars l = l := by
  have hfront : l.dropWhile pyIsSpace = l := by
    rcases l with _ | ⟨a, t⟩
    · rfl
    · exact List.dropWhile_cons_of_neg (by simp [h1 a rfl])
  have hback : l.reverse.dropWhile pyIsSpace = l.reverse := by
    rcases he : l.reverse with _ | ⟨a, t⟩
    · rfl
    · have : l.getLast? = some a := by
        rw [← List.head?_reverse, he]; rfl
      exact List.dropWhile_cons_of_neg (by simp [h2 a this])
  rw [stripChars, hfront, hback, List.reverse_reverse]

theorem head_not_space_of_stripped {l : List Char} {a : Char}
    (hs : l.dropWhile pyIsSpace = l) (ha : l.head? = some a) :
    pyIsSpace a = false := by
  rcases l with _ | ⟨b, t⟩
  · simp at ha
  · cases ha
    exact head_not_of_dropWhile_self hs rfl

theorem getLast_not_space_of_stripped {l : List Char} {a : Char}
    (hs : l.reverse.dropWhile pyIsSpace = l.reverse) (ha : l.getLast? = some a) :
    pyIsSpace a = false := by
  apply head_not_space_of_stripped hs
  rw [List.head?_reverse]
  exact ha

/-! ### Batch-chunking lemmas -/

theorem chunkedGo_flatten (n : Nat) :
    ∀ (xs acc : List String), (chunkedGo n xs acc).flatMap id = acc ++ xs
  | [], acc => by
    rcases acc with _ | ⟨a, t⟩ <;> simp [chunkedGo]
  | x :: xs, acc => by
    simp only [chunkedGo]
    by_cases h : (acc ++ [x]).length = n
    · rw [if_pos h]
      simp [chunkedGo_flatten n xs []]
    · rw [if_neg h]
      simp [chunkedGo_flatten n xs (acc ++ [x])]

theorem chunked_collections_flatten (tables : List String) (n : Nat) :
    (chunked_collections tables n).flatMap id = tables := by
  simpa using chunkedGo_flatten n tables []

/-- The scheduler's accumulated stream is the concatenation, in table
order, of the per-partition contributions: batching is aggregation-
transparent. -/
theorem rawResults_eq_flatMap (store : Store) (tables : List String)
    (batch_size : Nat) (query : MongoQuery) :
    rawResults store tables batch_size query =
      tables.flatMap (fun name => query_collection store name query) := by
  unfold rawResults
  rw [show (fun batch : List String =>
        batch.flatMap fun name => query_collection store name query) =
      (fun batch : List String =>
        (id batch).flatMap fun name => query_collection store name query) from rfl]
  rw [← List.flatMap_assoc, chunked_collections_flatten]

/-! ### Global-deduplication lemmas -/

theorem mem_globalDedup {p : Payload} :
    ∀ {l : List Payload} {seen : List String}, p ∈ globalDedup l seen →
      p ∈ l ∧ p.download_url ≠ "" ∧ p.download_url ∉ seen
  | [], seen, h => by simp [globalDedup] at h
  | item :: rest, seen, h => by
    simp only [globalDedup] at h
    by_cases hc : item.download_url ≠ "" ∧ item.download_url ∉ seen
    · rw [if_pos hc] at h
      rcases List.mem_cons.mp h with h | h
      · subst h; exact ⟨List.mem_cons_self _ _, hc.1, hc.2⟩
      · obtain ⟨h1, h2, h3⟩ := mem_globalDedup h
        exact ⟨List.mem_cons_of_mem _ h1, h2, fun hs => h3 (List.mem_cons_of_mem _ hs)⟩
    · rw [if_neg hc] at h
      obtain ⟨h1, h2, h3⟩ := mem_globalDedup h
      exact ⟨List.mem_cons_of_mem _ h1, h2, h3⟩

theorem globalDedup_urls_nodup :
    ∀ (l : List Payload) (seen : List String),
      ((globalDedup l seen).map (fun p => p.download_url)).Nodup
  | [], seen => by simp [globalDedup]
  | item :: rest, seen => by
    simp only [globalDedup]
    by_cases hc : item.download_url ≠ "" ∧ item.download_url ∉ seen
    · rw [if_pos hc]
      simp only [List.map_cons, List.nodup_cons]
      constructor
      · intro hmem
        obtain ⟨q, hq, hqe⟩ := List.mem_map.mp hmem
        have := (mem_globalDedup hq).2.2
        exact this (hqe ▸ List.mem_cons_self _ _)
      · exact globalDedup_urls_nodup rest _
    · rw [if_neg hc]
      exact globalDedup_urls_nodup rest seen

theorem globalDedup_filter_empty {u : String} :
    ∀ {l : List Payload} {seen : List String}, u ∈ seen →
      (globalDedup l seen).filter (fun p => p.download_url = u) = [] := by
  intro l seen hu
  rw [List.filter_eq_nil_iff]
  intro p hp
  simp only [decide_eq_true_eq]
  intro he
  exact (mem_globalDedup hp).2.2 (he ▸ hu)

/-- First-seen wins: for a fresh non-empty url, the deduplicated list keeps
exactly the first stream element carrying it. -/
theorem globalDedup_filter_take :
    ∀ (l : List Payload) (seen : List String) (u : String), u ≠ "" → u ∉ seen →
      (globalDedup l seen).filter (fun p => p.download_url = u) =
        (l.filter (fun p => p.download_url = u)).take 1
  | [], seen, u, hu, hs => by simp [globalDedup]
  | item :: rest, seen, u, hu, hs => by
    simp only [globalDedup]
    by_cases hc : item.download_url ≠ "" ∧ item.download_url ∉ seen
    · rw [if_pos hc]
      by_cases he : item.download_url = u
      · rw [List.filter_cons_of_pos (by simp [he]),
          List.filter_cons_of_pos (by simp [he])]
        rw [globalDedup_filter_empty (he ▸ List.mem_cons_self _ _)]
        simp
      · rw [List.filter_cons_of_neg (by simp [he]),
          List.filter_cons_of_neg (by simp [he])]
        exact globalDedup_filter_take rest _ u hu
          (by simp only [List.mem_cons]; rintro (h | h); exact he h.symm; exact hs h)
    · rw [if_neg hc]
      have he : item.download_url ≠ u := by
        intro h
        rcases not_and_or.mp hc with h' | h'
        · exact hu (h ▸ Classical.not_not.mp (fun hne => h' hne) ▸ rfl)
        · exact hs (h ▸ Classical.not_not.mp h')
      rw [List.filter_cons_of_neg (by simp [he])]
      exact globalDedup_filter_take rest seen u hu hs

/-! ### Whitespace-filter lemmas -/

theorem filter_dropWhile (p : α → Bool) (l : List α) :
    (l.dropWhile p).filter (fun c => !p c) = l.filter (fun c => !p c) := by
  induction l with
  | nil => rfl
  | cons a t ih =>
    by_cases h : p a
    · rw [List.dropWhile_cons_of_pos h, List.filter_cons_of_neg (by simp [h])]
      exact ih
    · rw [List.dropWhile_cons_of_neg h]

theorem filter_stripChars (l : List Char) :
    (stripChars l).filter (fun c => !pyIsSpace c) = l.filter (fun c => !pyIsSpace c) := by
  unfold stripChars
  rw [List.filter_reverse, filter_dropWhile, List.filter_reverse, filter_dropWhile,
    List.reverse_reverse]

/-- The strict-candidate test only looks at the non-whitespace characters,
so it is invariant under the entry `strip`. -/
theorem should_strict_strip (s : String) :
    should_strict_number_search (pyStrip s) = should_strict_number_search s := by
  unfold should_strict_number_search
  rw [show (pyStrip s).data = stripChars s.data from rfl, filter_stripChars]

theorem strict_ne_empty {s : String} (h : should_strict_number_search s = true) :
    s ≠ "" := by
  intro he
  rw [he] at h
  exact absurd h (by decide)

/-! ### Stores used to instantiate theorems on concrete inputs -/

/-- A store on which every query succeeds with no documents. -/
def emptyStore : Store := fun _ _ => some []

/-- A store on which every query raises. -/
def failStore : Store := fun _ _ => none

/-- The store with every failing query replaced by an empty success. -/
def recoverStore (store : Store) : Store := fun name q =>
  match store name q with
  | none => some []
  | some docs => some docs

theorem query_collection_recover (store : Store) (name : String) (q : MongoQuery) :
    query_collection (recoverStore store) name q = query_collection store name q := by
  unfold query_collection recoverStore
  cases h : store name q <;> simp [h, localDedup]

/-! ### Claim theorems -/

/-- C4: for every keyword that is empty or whitespace-only, and likewise
whenever the configured partition list is empty, `search_in_tables`
returns `{total: 0, data: []}` without issuing any query to any
partition. -/
theorem empty_input_guard (store : Store) (tables : List String)
    (batch_size : Nat) (keyword : String) (page : Nat) :
    (keyword.data.all pyIsSpace = true →
      search_in_tables store tables batch_size keyword page = ⟨0, []⟩ ∧
      search_calls store tables batch_size keyword page = []) ∧
    (tables = [] →
      search_in_tables store tables batch_size keyword page = ⟨0, []⟩ ∧
      search_calls store tables batch_size keyword page = []) := by
  constructor
  · intro h
    have hk : pyStrip keyword = "" := by
      unfold pyStrip
      rw [stripChars_of_all_space h]
    constructor
    · simp [search_in_tables, hk]
    · simp [search_calls, hk]
  · intro h
    subst h
    by_cases hk : pyStrip keyword = ""
    · exact ⟨by simp [search_in_tables, hk], by simp [search_calls, hk]⟩
    · exact ⟨by simp [search_in_tables, hk], by simp [search_calls, hk]⟩

/-- C4 witness: the whitespace-only keyword `"  "` and the empty table
list both produce the empty result with no store calls. -/
theorem empty_input_guard_witness :
    ("  ".data.all pyIsSpace = true ∧
      (search_in_tables emptyStore ["t1"] 4 "  " 1 = ⟨0, []⟩ ∧
       search_calls emptyStore ["t1"] 4 "  " 1 = [])) ∧
    (search_in_tables emptyStore [] 4 "abc" 1 = ⟨0, []⟩ ∧
     search_calls emptyStore [] 4 "abc" 1 = []) :=
  ⟨⟨by decide, (empty_input_guard emptyStore ["t1"] 4 "  " 1).1 (by decide)⟩,
   (empty_input_guard emptyStore [] 4 "abc" 1).2 rfl⟩

/-- C10: the public search is invariant under leading and trailing
whitespace in the keyword: `search_in_tables keyword` equals
`search_in_tables (strip keyword)`, because the keyword is stripped once
at entry and stripping is idempotent. -/
theorem strip_invariance (store : Store) (tables : List String)
    (batch_size : Nat) (keyword : String) (page : Nat) :
    search_in_tables store tables batch_size keyword page =
      search_in_tables store tables batch_size (pyStrip keyword) page := by
  unfold search_in_tables
  rw [pyStrip_idem]

/-- C5: `_query_collection` never propagates a store failure: a raising
partition contributes an empty list, the search behaves as if that
partition had succeeded with no documents, and the result is the global
dedup plus sort of the per-partition locally-deduplicated contributions
in table order. -/
theorem partition_failure_isolation (store : Store) (tables : List String)
    (batch_size : Nat) (keyword : String) (page : Nat) (q : MongoQuery)
    (label : String) (name : String) :
    (store name q = none → query_collection store name q = []) ∧
    execute_search (recoverStore store) tables batch_size keyword page q label =
      execute_search store tables batch_size keyword page q label ∧
    execute_search store tables batch_size keyword page q label =
      (globalDedup (tables.flatMap fun n => query_collection store n q) []).mergeSort
        (payloadLe keyword) := by
  refine ⟨fun h => ?_, ?_, ?_⟩
  · unfold query_collection
    rw [h]
  · have hf : (fun n => query_collection (recoverStore store) n q) =
        (fun n => query_collection store n q) :=
      funext fun n => query_collection_recover store n q
    unfold execute_search
    rw [rawResults_eq_flatMap, rawResults_eq_flatMap, hf]
  · unfold execute_search
    rw [rawResults_eq_flatMap]

/-- C5 witness: on the always-raising store, the partition contributes
nothing and the whole search still succeeds (empty aggregation). -/
theorem partition_failure_isolation_witness :
    query_collection failStore "t1" (build_query "abc") = [] ∧
    execute_search (recoverStore failStore) ["t1"] 4 "abc" 1 (build_query "abc") "fuzzy" =
      execute_search failStore ["t1"] 4 "abc" 1 (build_query "abc") "fuzzy" :=
  ⟨(partition_failure_isolation failStore ["t1"] 4 "abc" 1 (build_query "abc")
      "fuzzy" "t1").1 rfl,
   (partition_failure_isolation failStore ["t1"] 4 "abc" 1 (build_query "abc")
      "fuzzy" "t1").2.1⟩

/-- C1: when the keyword is a strict candidate and the strict
number-query search yields nothing, `search_in_tables` returns exactly
the fuzzy-only search's `{total, data}`; when the strict search yields at
least one result, those results are returned and only the strict query
is ever issued. -/
theorem strict_fallback_law (store : Store) (tables : List String) (batch_size : Nat)
    (keyword : String) (page : Nat)
    (hc : should_strict_number_search keyword = true) :
    (execute_search store tables batch_size (pyStrip keyword) page
        (build_number_query (pyStrip keyword)) "number-prefix" = [] →
      search_in_tables store tables batch_size keyword page =
        fuzzy_only_search store tables batch_size keyword page) ∧
    (execute_search store tables batch_size (pyStrip keyword) page
        (build_number_query (pyStrip keyword)) "number-prefix" ≠ [] →
      search_in_tables store tables batch_size keyword page =
        ⟨(execute_search store tables batch_size (pyStrip keyword) page
            (build_number_query (pyStrip keyword)) "number-prefix").length,
          execute_search store tables batch_size (pyStrip keyword) page
            (build_number_query (pyStrip keyword)) "number-prefix"⟩ ∧
      ∀ cq ∈ search_calls store tables batch_size keyword page,
        cq.2 = build_number_query (pyStrip keyword)) := by
  have hs : should_strict_number_search (pyStrip keyword) = true := by
    rw [should_strict_strip]
    exact hc
  have hne : pyStrip keyword ≠ "" := strict_ne_empty hs
  by_cases htab : tables.isEmpty
  · have hT : tables = [] := List.isEmpty_iff.mp htab
    subst hT
    have hempty : execute_search store [] batch_size (pyStrip keyword) page
        (build_number_query (pyStrip keyword)) "number-prefix" = [] := by
      simp [execute_search, rawResults, chunked_collections, chunkedGo, globalDedup]
    constructor
    · intro _
      simp [search_in_tables, fuzzy_only_search, hne]
    · intro hneq
      exact absurd hempty hneq
  · constructor
    · intro hres
      have hres' : (execute_search store tables batch_size (pyStrip keyword) page
          (build_number_query (pyStrip keyword)) "number-prefix").isEmpty = true := by
        rw [List.isEmpty_iff]
        exact hres
      simp only [search_in_tables, fuzzy_only_search, if_neg hne, htab,
        Bool.false_eq_true, if_false, if_pos hs, hres', if_true]
    · intro hneq
      have hres' : ¬ (execute_search store tables batch_size (pyStrip keyword) page
          (build_number_query (pyStrip keyword)) "number-prefix").isEmpty = true := by
        rw [List.isEmpty_iff]
        exact hneq
      constructor
      · simp only [search_in_tables, if_neg hne, htab, Bool.false_eq_true, if_false,
          if_pos hs, hres', if_false]
      · intro cq hcq
        simp only [search_calls, if_neg hne, htab, Bool.false_eq_true, if_false,
          if_pos hs, hres', if_false] at hcq
        obtain ⟨n, _, hn⟩ := List.mem_map.mp hcq
        rw [← hn]

/-- C1 witness: on the empty-success store the strict phase of the
candidate keyword `"ab"` finds nothing and the search equals the
fuzzy-only search. -/
theorem strict_fallback_law_witness :
    should_strict_number_search "ab" = true ∧
    search_in_tables emptyStore ["t1"] 4 "ab" 1 =
      fuzzy_only_search emptyStore ["t1"] 4 "ab" 1 :=
  ⟨by decide,
   (strict_fallback_law emptyStore ["t1"] 4 "ab" 1 (by decide)).1
     (by simp [execute_search, rawResults, chunked_collections, chunkedGo,
       query_collection, emptyStore, localDedup, globalDedup])⟩

/-- C7: the strict-candidate test returns true iff, after removing all
whitespace, the keyword is non-empty and ASCII-only, its core with `-`
and `_` removed consists solely of alphanumeric characters, and that
core either contains both a letter and a digit or is purely alphabetic
with length between 2 and 6; empty and non-ASCII keywords yield false. -/
theorem strict_candidate_characterization (keyword : String) :
    should_strict_number_search keyword = true ↔
      (let core := keyword.data.filter fun c => !pyIsSpace c
       let san := core.filter fun c => c != '-' && c != '_'
       core ≠ [] ∧ (∀ c ∈ core, c.toNat < 128) ∧ (∀ c ∈ san, c.isAlphanum = true) ∧
       (((∃ c ∈ san, c.isAlpha = true) ∧ ∃ c ∈ san, c.isDigit = true) ∨
        ((∀ c ∈ san, c.isAlpha = true) ∧ 2 ≤ san.length ∧ san.length ≤ 6))) := by
  simp only [should_strict_number_search]
  generalize keyword.data.filter (fun c => !pyIsSpace c) = core
  generalize core.filter (fun c => c != '-' && c != '_') = san
  by_cases h1 : core.isEmpty
  · rw [if_pos h1]
    simp only [Bool.false_eq_true, false_iff, not_and]
    intro hne
    exact absurd (List.isEmpty_iff.mp h1) hne
  · rw [if_neg h1]
    have hcne : core ≠ [] := fun h => h1 (List.isEmpty_iff.mpr h)
    by_cases h2 : core.all isAsciiChar = true
    · rw [if_neg (by simp [h2])]
      have hascii : ∀ c ∈ core, c.toNat < 128 := by
        intro c hc
        simpa [isAsciiChar] using List.all_eq_true.mp h2 c hc
      by_cases h3 : (!san.isEmpty && san.all Char.isAlphanum) = true
      · rw [if_neg (by simp [h3])]
        have halnum : ∀ c ∈ san, c.isAlphanum = true :=
          List.all_eq_true.mp (Bool.and_eq_true_iff.mp h3).2
        by_cases h4 : (san.any Char.isAlpha && san.any Char.isDigit) = true
        · rw [if_pos h4]
          simp only [true_iff]
          obtain ⟨h4a, h4b⟩ := Bool.and_eq_true_iff.mp h4
          exact ⟨hcne, hascii, halnum,
            Or.inl ⟨List.any_eq_true.mp h4a, List.any_eq_true.mp h4b⟩⟩
        · rw [if_neg h4]
          by_cases h5 : ((!san.isEmpty && san.all Char.isAlpha) &&
              decide (2 ≤ san.length) && decide (san.length ≤ 6)) = true
          · rw [if_pos h5]
            simp only [true_iff]
            simp only [Bool.and_eq_true, decide_eq_true_eq] at h5
            exact ⟨hcne, hascii, halnum,
              Or.inr ⟨List.all_eq_true.mp h5.1.1.2, h5.1.2, h5.2⟩⟩
          · rw [if_neg h5]
            simp only [Bool.false_eq_true, false_iff]
            rintro ⟨-, -, -, ⟨ha, hb⟩ | ⟨ha, hl2, hl6⟩⟩
            · exact h4 (by
                rw [Bool.and_eq_true]
                exact ⟨List.any_eq_true.mpr ha, List.any_eq_true.mpr hb⟩)
            · apply h5
              have hne : san ≠ [] := by
                intro h
                rw [h] at hl2
                simp at hl2
              simp only [Bool.and_eq_true, decide_eq_true_eq]
              refine ⟨⟨⟨?_, List.all_eq_true.mpr ha⟩, hl2⟩, hl6⟩
              simp [List.isEmpty_iff, hne]
      · rw [if_pos (by simp [h3])]
        simp only [Bool.false_eq_true, false_iff]
        rintro ⟨-, -, halnum, hd⟩
        apply h3
        have hne : san ≠ [] := by
          rcases hd with ⟨⟨c, hc, -⟩, -⟩ | ⟨-, hl2, -⟩
          · exact List.ne_nil_of_mem hc
          · intro h
            rw [h] at hl2
            simp at hl2
        simp only [Bool.and_eq_true]
        exact ⟨by simp [List.isEmpty_iff, hne], List.all_eq_true.mpr halnum⟩
    · rw [if_pos (by simp [h2])]
      simp only [Bool.false_eq_true, false_iff]
      rintro ⟨-, hascii, -⟩
      apply h2
      rw [List.all_eq_true]
      intro c hc
      simpa [isAsciiChar] using hascii c hc

/-- C7 witness: the characterization applied at the concrete candidate
`"AB-12"`. -/
theorem strict_candidate_characterization_witness :
    should_strict_number_search "AB-12" = true :=
  (strict_candidate_characterization "AB-12").mpr (by decide)

/-! ### BTIH-scan lemmas -/

/-- The regex condition at position `i` of `l`: `urn:btih:` matches
case-insensitively and is followed by at least 32 alphanumeric
characters, so `urn:btih:([a-zA-Z0-9]{32,40})` matches here, the greedy
group taking at most 40 of the run. -/
def btihAt (l : List Char) (i : Nat) : Bool :=
  matchCI BTIH_TAG (l.drop i) &&
    decide (32 ≤ ((l.drop (i + 9)).takeWhile Char.isAlphanum).length)

theorem btihAt_shift (c : Char) (t : List Char) (i : Nat) :
    btihAt (c :: t) (i + 1) = btihAt t i := by
  have h9 : i + 1 + 9 = (i + 9) + 1 := by omega
  simp [btihAt, h9, List.drop_succ_cons]

theorem btihScan_eq_none : ∀ (l : List Char), (∀ i, btihAt l i = false) →
    btihScan l = none
  | [], _ => rfl
  | c :: t, h => by
    have h0 := h 0
    simp only [btihAt, List.drop_zero] at h0
    have ht : ∀ i, btihAt t i = false := fun i => by
      rw [← btihAt_shift c t i]
      exact h (i + 1)
    simp only [btihScan]
    cases hm : matchCI BTIH_TAG (c :: t)
    · rw [if_neg (by simp)]
      exact btihScan_eq_none t ht
    · rw [if_pos rfl]
      rw [hm] at h0
      simp only [Bool.true_and, decide_eq_false_iff_not, Nat.zero_add] at h0
      rw [if_neg h0]
      exact btihScan_eq_none t ht

theorem btihScan_eq_some : ∀ (l : List Char) (i : Nat), btihAt l i = true →
    (∀ j, j < i → btihAt l j = false) →
    btihScan l = some (((l.drop (i + 9)).takeWhile Char.isAlphanum).take 40)
  | [], i, hi, _ => by
    simp only [btihAt, List.drop_nil] at hi
    rw [show matchCI BTIH_TAG [] = false from by decide] at hi
    simp at hi
  | c :: t, 0, hi, _ => by
    simp only [btihAt, List.drop_zero] at hi
    obtain ⟨hm, hr⟩ := Bool.and_eq_true_iff.mp hi
    simp only [btihScan]
    rw [if_pos hm, if_pos (by simpa using hr)]
  | c :: t, i + 1, hi, hmin => by
    have h0 := hmin 0 (Nat.succ_pos i)
    simp only [btihAt, List.drop_zero] at h0
    have hi' : btihAt t i = true := by
      rw [← btihAt_shift c t i]
      exact hi
    have hmin' : ∀ j, j < i → btihAt t j = false := fun j hj => by
      rw [← btihAt_shift c t j]
      exact hmin (j + 1) (by omega)
    have h9 : i + 1 + 9 = (i + 9) + 1 := by omega
    rw [h9, List.drop_succ_cons]
    simp only [btihScan]
    cases hm : matchCI BTIH_TAG (c :: t)
    · rw [if_neg (by simp)]
      exact btihScan_eq_some t i hi' hmin'
    · rw [if_pos rfl]
      rw [hm] at h0
      simp only [Bool.true_and, decide_eq_false_iff_not, Nat.zero_add] at h0
      rw [if_neg h0]
      exact btihScan_eq_some t i hi' hmin'

/-- C6: `_clean_magnet` maps the empty string to the empty string,
returns the input unchanged when no position carries a (case-insensitive)
`urn:btih:` tag followed by 32 alphanumeric characters, and otherwise
rebuilds `magnet:?xt=urn:btih:<hash>` from the leftmost such position,
`<hash>` being that alphanumeric run (the greedy group, at most 40
characters). -/
theorem clean_magnet_characterization (s : String) :
    (clean_magnet "" = "") ∧
    ((∀ i, btihAt s.data i = false) → clean_magnet s = s) ∧
    (∀ i, btihAt s.data i = true → (∀ j, j < i → btihAt s.data j = false) →
      clean_magnet s = "magnet:?xt=urn:btih:" ++
        String.mk (((s.data.drop (i + 9)).takeWhile Char.isAlphanum).take 40)) := by
  refine ⟨rfl, ?_, ?_⟩
  · intro h
    unfold clean_magnet
    by_cases hs : s = ""
    · rw [if_pos hs, hs]
    · rw [if_neg hs, btihScan_eq_none _ h]
  · intro i hi hmin
    unfold clean_magnet
    have hs : s ≠ "" := by
      intro he
      subst he
      simp only [show ("" : String).data = [] from rfl, btihAt, List.drop_nil] at hi
      rw [show matchCI BTIH_TAG [] = false from by decide] at hi
      simp at hi
    rw [if_neg hs, btihScan_eq_some s.data i hi hmin]

/-- C6 witness: the characterization applied at a magnet-bearing string
whose tag sits at position 3 with a 36-character hash. -/
theorem clean_magnet_characterization_witness :
    clean_magnet "ab URN:btih:0123456789abcdefghij0123456789ABCDEF&x" =
      "magnet:?xt=urn:btih:0123456789abcdefghij0123456789ABCDEF" := by
  have h := (clean_magnet_characterization
      "ab URN:btih:0123456789abcdefghij0123456789ABCDEF&x").2.2 3
    (by decide) (by
      intro j hj
      interval_cases j <;> decide)
  rw [h]
  decide

/-! ### Title-composition lemmas -/

theorem parts_of_stripChars_eq {l : List Char} (h : stripChars l = l) :
    l.dropWhile pyIsSpace = l ∧ l.reverse.dropWhile pyIsSpace = l.reverse := by
  have hlen : (stripChars l).length = l.length := by rw [h]
  unfold stripChars at hlen
  rw [List.length_reverse] at hlen
  have h1 : ((l.dropWhile pyIsSpace).reverse.dropWhile pyIsSpace).length ≤
      (l.dropWhile pyIsSpace).length := by
    have := (List.dropWhile_sublist (l := (l.dropWhile pyIsSpace).reverse)
      pyIsSpace).length_le
    simpa using this
  have h2 : (l.dropWhile pyIsSpace).length ≤ l.length :=
    (List.dropWhile_sublist (l := l) pyIsSpace).length_le
  have hfront : l.dropWhile pyIsSpace = l :=
    (List.dropWhile_sublist (l := l) pyIsSpace).eq_of_length (by omega)
  refine ⟨hfront, ?_⟩
  rw [hfront] at hlen
  exact (List.dropWhile_sublist (l := l.reverse) pyIsSpace).eq_of_length
    (by simpa using hlen)

theorem stripChars_append_sandwich {x y : List Char}
    (hxh : ∀ a, x.head? = some a → pyIsSpace a = false) (hx : x ≠ [])
    (hyl : ∀ a, y.getLast? = some a → pyIsSpace a = false) (hy : y ≠ []) :
    stripChars (x ++ y) = x ++ y := by
  apply stripChars_eq_self_of
  · intro a ha
    rw [List.head?_append] at ha
    rcases hx' : x.head? with _ | b
    · rcases x with _ | ⟨c, t⟩
      · exact absurd rfl hx
      · simp at hx'
    · rw [hx'] at ha
      simp only [Option.or_some] at ha
      cases ha
      exact hxh _ hx'
  · intro a ha
    rw [List.getLast?_append] at ha
    rcases hy' : y.getLast? with _ | b
    · exact absurd (List.getLast?_eq_none_iff.mp hy') hy
    · rw [hy'] at ha
      simp only [Option.or_some] at ha
      cases ha
      exact hyl _ hy'

theorem data_ne_nil_of_ne_empty {s : String} (h : s ≠ "") : s.data ≠ [] := by
  intro hd
  exact h (String.ext hd)

/-- Appending two stripped, non-empty strings around one space yields a
string that `strip` leaves unchanged. -/
theorem pyStrip_append_fix {x y : String}
    (hx : stripChars x.data = x.data) (hy : stripChars y.data = y.data)
    (hxe : x ≠ "") (hye : y ≠ "") :
    pyStrip (x ++ " " ++ y) = x ++ " " ++ y := by
  apply String.ext
  show stripChars (x ++ " " ++ y).data = (x ++ " " ++ y).data
  have hd : (x ++ " " ++ y).data = x.data ++ (' ' :: y.data) := by
    simp [String.data_append]
  rw [hd]
  apply stripChars_append_sandwich
  · intro a ha
    exact head_not_space_of_stripped (parts_of_stripChars_eq hx).1 ha
  · exact data_ne_nil_of_ne_empty hxe
  · intro a ha
    have h1 : (' ' :: y.data).getLast? = y.data.getLast? := by
      have : (' ' :: y.data) = [' '] ++ y.data := rfl
      rw [this, List.getLast?_append]
      rcases hy' : y.data.getLast? with _ | b
      · exact absurd (List.getLast?_eq_none_iff.mp hy') (data_ne_nil_of_ne_empty hye)
      · rfl
    rw [h1] at ha
    exact getLast_not_space_of_stripped (parts_of_stripChars_eq hy).2 ha
  · simp

theorem clean_text_stripped (v : Value) :
    stripChars (clean_text v).data = (clean_text v).data := by
  unfold clean_text
  rcases v with _ | n | s
  · rfl
  all_goals
    dsimp only
    split
    · rfl
    · exact stripChars_idem _

theorem clean_text_append_fix {u v : Value}
    (hxe : clean_text u ≠ "") (hye : clean_text v ≠ "") :
    pyStrip (clean_text u ++ " " ++ clean_text v) =
      clean_text u ++ " " ++ clean_text v :=
  pyStrip_append_fix (clean_text_stripped u) (clean_text_stripped v) hxe hye

/-- C8: with the fixed brand label, `_compose_title` prepends the label
to a present title that lacks it; with a number present it returns the
(prefixed) title unchanged when it already contains the number, else
`"{number} {title}"`, else the number alone; with both absent it returns
the literal `"No Title"`; and the result is always non-empty. -/
theorem title_composition (number title : Value) :
    (compose_title number title (some BRAND_LABEL) =
      (let ns := clean_text number
       let tp := if clean_text title ≠ "" ∧
           containsS (clean_text title) BRAND_LABEL = false
         then BRAND_LABEL ++ " " ++ clean_text title else clean_text title
       if ns ≠ "" then
         (if tp ≠ "" then (if containsS tp ns = true then tp else ns ++ " " ++ tp)
          else ns)
       else if tp ≠ "" then tp else "No Title")) ∧
    compose_title number title (some BRAND_LABEL) ≠ "" := by
  have hb : (BRAND_LABEL : String) ≠ "" := by decide
  have happne : ∀ x y : String, x ++ " " ++ y ≠ "" := by
    intro x y h
    have hd := congrArg String.data h
    simp [String.data_append] at hd
  unfold compose_title
  simp only [ne_eq, hb, not_false_eq_true, true_and]
  by_cases hcond : ¬(clean_text title = "") ∧
      containsS (clean_text title) BRAND_LABEL = false
  · have hfix1 : pyStrip (BRAND_LABEL ++ " " ++ clean_text title) =
        BRAND_LABEL ++ " " ++ clean_text title :=
      pyStrip_append_fix (by decide) (clean_text_stripped title) hb hcond.1
    have htpst : stripChars (BRAND_LABEL ++ " " ++ clean_text title).data =
        (BRAND_LABEL ++ " " ++ clean_text title).data := congrArg String.data hfix1
    rw [if_pos hcond, hfix1, if_pos hcond]
    split_ifs with h1 h2 h3 h4 <;>
      first
        | exact ⟨rfl, happne _ _⟩
        | exact ⟨rfl, by decide⟩
        | exact absurd (happne BRAND_LABEL (clean_text title)) ‹_›
        | (rw [pyStrip_append_fix (clean_text_stripped number) htpst ‹_› (happne _ _)]
           exact ⟨rfl, happne _ _⟩)
        | exact ⟨rfl, ‹¬clean_text number = ""›⟩
  · rw [if_neg hcond, if_neg hcond]
    split_ifs with h1 h2 h3 <;>
      first
        | exact ⟨rfl, happne _ _⟩
        | exact ⟨rfl, by decide⟩
        | (rw [clean_text_append_fix ‹¬clean_text number = ""›
             ‹¬clean_text title = ""›]
           exact ⟨rfl, happne _ _⟩)
        | exact ⟨rfl, ‹¬clean_text number = ""›⟩
        | exact ⟨rfl, ‹¬clean_text title = ""›⟩

/-- C9 counterexample: a record whose stored size field is the negative
number `-5` resolves to the negative value `-5`, so the resolved size is
not always non-negative. -/
theorem size_resolution_counterexample :
    resolve_size_mb [("size_mb", Value.vInt (-5))] "" < 0 := by
  have h : resolve_size_mb [("size_mb", Value.vInt (-5))] "" = ((-5 : Int) : ℚ) := by
    simp [resolve_size_mb, resolveSizeKeys, SIZE_KEYS, dictGet, pyFloat]
  rw [h]
  norm_num

/-- C9 (amended): text-extracted sizes are always non-negative; with all
size aliases absent the value comes from the unit-aware text scan (hence
is non-negative, GB×1024 / MB×1 / KB÷1024, default 0); a present castable
first-alias value is used as is; and a title containing `"1.5GB"` yields
1536. -/
theorem size_resolution_amended (doc : RawDoc) (fb : String) :
    (0 ≤ extract_size_from_text fb) ∧
    ((∀ k ∈ SIZE_KEYS, dictGet doc k = none) →
      resolve_size_mb doc fb = extract_size_from_text fb ∧
      0 ≤ resolve_size_mb doc fb) ∧
    (∀ (n : Int) (rest : RawDoc),
      resolve_size_mb (("size_mb", Value.vInt n) :: rest) fb = (n : ℚ)) ∧
    extract_size_from_text "1.5GB" = 1536 := by
  have hnn : 0 ≤ extract_size_from_text fb := by
    unfold extract_size_from_text
    by_cases he : fb = ""
    · rw [if_pos he]
    · rw [if_neg he]
      rcases sizeSearch fb.data with _ | m
      · exact le_refl 0
      · dsimp only
        split_ifs <;> positivity
  have htext : (∀ k ∈ SIZE_KEYS, dictGet doc k = none) →
      resolve_size_mb doc fb = extract_size_from_text fb := by
    intro h
    have h1 := h "size_mb" (by simp [SIZE_KEYS])
    have h2 := h "size" (by simp [SIZE_KEYS])
    have h3 := h "Movie Size" (by simp [SIZE_KEYS])
    simp [resolve_size_mb, resolveSizeKeys, SIZE_KEYS, h1, h2, h3]
  refine ⟨hnn, fun h => ⟨htext h, ?_⟩, fun n rest => ?_, ?_⟩
  · rw [htext h]
    exact hnn
  · simp [resolve_size_mb, resolveSizeKeys, SIZE_KEYS, dictGet, pyFloat]
  · have h : sizeSearch "1.5GB".data = some (15, 1, "GB") := by decide
    rw [extract_size_from_text, if_neg (by decide), h]
    simp only [if_pos (show containsS (upperS "GB") "G" = true from by decide)]
    norm_num

/-- C9 witness: the amended theorem applied at a record with no size
aliases and a title text carrying `"1.5GB"`. -/
theorem size_resolution_amended_witness :
    resolve_size_mb [("title", Value.vStr "x")] "see 1.5GB" =
      extract_size_from_text "see 1.5GB" ∧
    0 ≤ resolve_size_mb [("title", Value.vStr "x")] "see 1.5GB" :=
  (size_resolution_amended [("title", Value.vStr "x")] "see 1.5GB").2.1 (by decide)

theorem exec_urls_nonempty (store : Store) (tables : List String) (batch_size : Nat)
    (keyword : String) (page : Nat) (q : MongoQuery) (label : String) :
    ∀ p ∈ execute_search store tables batch_size keyword page q label,
      p.download_url ≠ "" := by
  intro p hp
  unfold execute_search at hp
  rw [List.mem_mergeSort] at hp
  exact (mem_globalDedup hp).2.1

theorem exec_urls_nodup (store : Store) (tables : List String) (batch_size : Nat)
    (keyword : String) (page : Nat) (q : MongoQuery) (label : String) :
    ((execute_search store tables batch_size keyword page q label).map
      (fun p => p.download_url)).Nodup := by
  unfold execute_search
  have hperm : List.Perm ((globalDedup (rawResults store tables batch_size q)
      []).mergeSort (payloadLe keyword))
      (globalDedup (rawResults store tables batch_size q) []) :=
    List.mergeSort_perm _ _
  exact (List.Perm.nodup_iff (hperm.map _)).mpr (globalDedup_urls_nodup _ _)

theorem exec_filter_first (store : Store) (tables : List String) (batch_size : Nat)
    (keyword : String) (page : Nat) (q : MongoQuery) (label : String)
    (u : String) (hu : u ≠ "") :
    (execute_search store tables batch_size keyword page q label).filter
      (fun p => p.download_url = u) =
    ((rawResults store tables batch_size q).filter
      (fun p => p.download_url = u)).take 1 := by
  unfold execute_search
  have hperm : List.Perm (((globalDedup (rawResults store tables batch_size q)
      []).mergeSort (payloadLe keyword)).filter (fun p => p.download_url = u))
      ((globalDedup (rawResults store tables batch_size q) []).filter
        (fun p => p.download_url = u)) :=
    (List.mergeSort_perm _ _).filter _
  rw [globalDedup_filter_take _ [] u hu (List.not_mem_nil u)] at hperm
  rcases htk : ((rawResults store tables batch_size q).filter
      (fun p => p.download_url = u)).take 1 with _ | ⟨x, xs⟩
  · rw [htk] at hperm
    rw [htk]
    exact hperm.eq_nil
  · have hxs : xs = [] := by
      have hlen := congrArg List.length htk
      simp only [List.length_take, List.length_cons] at hlen
      have : xs.length = 0 := by omega
      exact List.length_eq_zero.mp this
    subst hxs
    rw [htk] at hperm
    rw [htk]
    exact hperm.eq_singleton

/-- C2 (amended): every entry returned by `search_in_tables` has a
non-empty `download_url`, the `download_url` values are pairwise
distinct, and for each non-empty url an executed phase keeps exactly the
first payload carrying it in the scheduler-produced stream of
locally-deduplicated records — not necessarily the first raw record with
that magnet, which local title dedup may have dropped. -/
theorem dedup_invariants (store : Store) (tables : List String) (batch_size : Nat)
    (keyword : String) (page : Nat) :
    (∀ p ∈ (search_in_tables store tables batch_size keyword page).data,
      p.download_url ≠ "") ∧
    ((search_in_tables store tables batch_size keyword page).data.map
      (fun p => p.download_url)).Nodup ∧
    (∀ (q : MongoQuery) (label : String) (u : String), u ≠ "" →
      (execute_search store tables batch_size keyword page q label).filter
        (fun p => p.download_url = u) =
      ((rawResults store tables batch_size q).filter
        (fun p => p.download_url = u)).take 1) := by
  refine ⟨?_, ?_, fun q label u hu =>
    exec_filter_first store tables batch_size keyword page q label u hu⟩
  · intro p hp
    simp only [search_in_tables] at hp
    split_ifs at hp with h1 h2 h3 h4
    · simp at hp
    · simp at hp
    · exact exec_urls_nonempty store tables batch_size (pyStrip keyword) page
        (build_query (pyStrip keyword)) "fuzzy" p hp
    · exact exec_urls_nonempty store tables batch_size (pyStrip keyword) page
        (build_number_query (pyStrip keyword)) "number-prefix" p hp
    · exact exec_urls_nonempty store tables batch_size (pyStrip keyword) page
        (build_query (pyStrip keyword)) "fuzzy" p hp
  · simp only [search_in_tables]
    split_ifs with h1 h2 h3 h4
    · simp
    · simp
    · exact exec_urls_nodup store tables batch_size (pyStrip keyword) page
        (build_query (pyStrip keyword)) "fuzzy"
    · exact exec_urls_nodup store tables batch_size (pyStrip keyword) page
        (build_number_query (pyStrip keyword)) "number-prefix"
    · exact exec_urls_nodup store tables batch_size (pyStrip keyword) page
        (build_query (pyStrip keyword)) "fuzzy"

/-! ### A concrete store on which local title dedup interacts with magnet
dedup: documents 1 and 2 share a canonical magnet, document 1 repeats
document 0's title. -/

def cexMagnetA : String := "magnet:?xt=urn:btih:aaaaaaaaaaaaaaaaaaaaaaaaaaaaaaaa"
def cexMagnetB : String := "magnet:?xt=urn:btih:bbbbbbbbbbbbbbbbbbbbbbbbbbbbbbbb"

def cexDoc0 : RawDoc :=
  [("tid", .vInt 10), ("title", .vStr "T"), ("number", .vStr "AB-1"),
   ("magnet", .vStr "magnet:?xt=urn:btih:aaaaaaaaaaaaaaaaaaaaaaaaaaaaaaaa")]
def cexDoc1 : RawDoc :=
  [("tid", .vInt 11), ("title", .vStr "T"), ("number", .vStr "AB-2"),
   ("magnet", .vStr "magnet:?xt=urn:btih:bbbbbbbbbbbbbbbbbbbbbbbbbbbbbbbb&tr=udp")]
def cexDoc2 : RawDoc :=
  [("tid", .vInt 12), ("title", .vStr "U"), ("number", .vStr "AB-3"),
   ("magnet", .vStr "magnet:?xt=urn:btih:bbbbbbbbbbbbbbbbbbbbbbbbbbbbbbbb")]

def cexStore : Store := fun _ _ => some [cexDoc0, cexDoc1, cexDoc2]

theorem cex_skip0 : should_skip_document cexDoc0 [] [] = (false, cexMagnetA, "T") := by
  decide

theorem cex_skip1 : should_skip_document cexDoc1 [cexMagnetA] ["T"] = (true, "", "") := by
  decide

theorem cex_skip2 : should_skip_document cexDoc2 [cexMagnetA] ["T"] =
    (false, cexMagnetB, "U") := by
  decide

theorem cex_local : localDedup "t1" [cexDoc0, cexDoc1, cexDoc2] [] [] =
    [document_to_payload cexDoc0 "t1", document_to_payload cexDoc2 "t1"] := by
  simp [localDedup, cex_skip0, cex_skip1, cex_skip2]

theorem cex_raw : rawResults cexStore ["t1"] 4 (build_number_query "ab") =
    [document_to_payload cexDoc0 "t1", document_to_payload cexDoc2 "t1"] := by
  rw [rawResults_eq_flatMap]
  simp only [List.flatMap_cons, List.flatMap_nil, List.append_nil, query_collection,
    cexStore, cex_local]

theorem cex_url0 : (document_to_payload cexDoc0 "t1").download_url = cexMagnetA := by
  decide

theorem cex_url2 : (document_to_payload cexDoc2 "t1").download_url = cexMagnetB := by
  decide

theorem cex_global : globalDedup [document_to_payload cexDoc0 "t1",
    document_to_payload cexDoc2 "t1"] [] =
    [document_to_payload cexDoc0 "t1", document_to_payload cexDoc2 "t1"] := by
  simp only [globalDedup, cex_url0, cex_url2]
  rw [if_pos (by decide), if_pos (by decide)]

theorem cex_sorted : ([document_to_payload cexDoc0 "t1",
    document_to_payload cexDoc2 "t1"].mergeSort (payloadLe "ab")) =
    [document_to_payload cexDoc0 "t1", document_to_payload cexDoc2 "t1"] :=
  List.mergeSort_of_sorted (List.pairwise_pair.mpr (by decide))

theorem cex_exec : execute_search cexStore ["t1"] 4 "ab" 1 (build_number_query "ab")
    "number-prefix" = [document_to_payload cexDoc0 "t1",
      document_to_payload cexDoc2 "t1"] := by
  unfold execute_search
  rw [cex_raw, cex_global, cex_sorted]

theorem cex_search : search_in_tables cexStore ["t1"] 4 "ab" 1 =
    ⟨2, [document_to_payload cexDoc0 "t1", document_to_payload cexDoc2 "t1"]⟩ := by
  have hstrip : pyStrip "ab" = "ab" := by decide
  simp only [search_in_tables, hstrip]
  rw [if_neg (by decide), if_neg (by decide), if_pos (by decide), cex_exec]
  rw [if_neg (by decide)]
  rfl

/-- C2 counterexample: `cexDoc1` and `cexDoc2` canonicalize to the same
magnet, and `cexDoc1` (id 11) comes first in the scheduler-produced
order; yet the returned entry for that magnet is `cexDoc2`'s (id 12),
because local title dedup dropped `cexDoc1` (its title repeats
`cexDoc0`'s) — so the kept entry is not the first raw record. -/
theorem dedup_first_seen_counterexample :
    clean_magnet (clean_text (first_present cexDoc1 MAGNET_KEYS)) = cexMagnetB ∧
    clean_magnet (clean_text (first_present cexDoc2 MAGNET_KEYS)) = cexMagnetB ∧
    cexStore "t1" (build_number_query "ab") = some [cexDoc0, cexDoc1, cexDoc2] ∧
    extract_numeric_id cexDoc1 = 11 ∧ extract_numeric_id cexDoc2 = 12 ∧
    (search_in_tables cexStore ["t1"] 4 "ab" 1).data.map
      (fun p => (p.id, p.download_url)) = [(10, cexMagnetA), (12, cexMagnetB)] := by
  refine ⟨by decide, by decide, rfl, by decide, by decide, ?_⟩
  rw [cex_search]
  decide

/-- C2 witness: the first-stream-payload law applied on the concrete
store at the shared magnet. -/
theorem dedup_invariants_witness :
    (execute_search cexStore ["t1"] 4 "ab" 1 (build_number_query "ab")
      "number-prefix").filter (fun p => p.download_url = cexMagnetB) =
    ((rawResults cexStore ["t1"] 4 (build_number_query "ab")).filter
      (fun p => p.download_url = cexMagnetB)).take 1 :=
  (dedup_invariants cexStore ["t1"] 4 "ab" 1).2.2 (build_number_query "ab")
    "number-prefix" cexMagnetB (by decide)

/-! ### Sort-law lemmas -/

theorem isEmpty_false_of_ne_nil {l : List α} (h : l ≠ []) : l.isEmpty = false := by
  cases l
  · exact absurd rfl h
  · rfl

/-- The comparison relation of the sort implies the claim-level ordering
facts, provided the keyword is non-empty. -/
theorem payloadLe_claim {keyword : String} (hk : keyword ≠ "") (a b : Payload)
    (h : payloadLe keyword a b = true) :
    (containsS (lowerS b.number) (lowerS keyword) = true →
      containsS (lowerS a.number) (lowerS keyword) = true) ∧
    ¬(a.number = "" ∧ b.number ≠ "") ∧
    ((containsS (lowerS a.number) (lowerS keyword) =
        containsS (lowerS b.number) (lowerS keyword) ∧
      (a.number = "" ↔ b.number = "")) →
      charsLe (lowerChars a.number.data) (lowerChars b.number.data) = true) := by
  have hdata : ∀ s t : String, containsS (lowerS s) (lowerS t) =
      containsChars (lowerChars s.data) (lowerChars t.data) := fun s t => rfl
  have hkwl : lowerChars keyword.data ≠ [] := by
    intro hh
    apply data_ne_nil_of_ne_empty hk
    rcases he : keyword.data with _ | ⟨c, t⟩
    · rfl
    · rw [he] at hh
      simp [lowerChars] at hh
  simp only [payloadLe, keyLe, sortKey] at h
  refine ⟨?_, ?_, ?_⟩
  · intro hbC
    by_contra haC
    rw [hdata] at hbC haC
    have haC' : containsChars (lowerChars a.number.data) (lowerChars keyword.data) =
        false := by
      cases hc : containsChars (lowerChars a.number.data) (lowerChars keyword.data)
      · rfl
      · exact absurd hc haC
    rw [haC', hbC] at h
    simp at h
  · rintro ⟨hae, hbe⟩
    have haC : containsChars (lowerChars a.number.data) (lowerChars keyword.data) =
        false := by
      rw [hae]
      exact isEmpty_false_of_ne_nil hkwl
    have ha2 : (a.number == "") = true := by rw [hae]; exact beq_self_eq_true ""
    have hb2 : (b.number == "") = false := beq_eq_false_iff_ne.mpr hbe
    cases hbC : containsChars (lowerChars b.number.data) (lowerChars keyword.data) <;>
      rw [haC, hbC, ha2, hb2] at h <;> simp at h
  · rintro ⟨hceq, hiff⟩
    rw [hdata, hdata] at hceq
    have h2 : (a.number == "") = (b.number == "") := by
      by_cases hae : a.number = ""
      · rw [hae, hiff.mp hae]
      · have hbe : b.number ≠ "" := fun hb => hae (hiff.mpr hb)
        rw [beq_eq_false_iff_ne.mpr hae, beq_eq_false_iff_ne.mpr hbe]
    rw [if_neg (by simp [hceq]), if_neg (by simp [h2])] at h
    exact h

/-- C3: in every returned result list, entries whose number contains the
keyword (case-insensitively) precede entries whose number does not; no
empty-number entry precedes a non-empty-number entry; entries tied on
both of those keys are in ascending case-insensitive code-point order of
their number; and the sort is stable — entries with equal sort keys keep
their input order. -/
theorem sort_law (store : Store) (tables : List String) (batch_size : Nat)
    (keyword : String) (page : Nat) (q : MongoQuery) (label : String)
    (hk : keyword ≠ "") :
    (execute_search store tables batch_size keyword page q label).Pairwise
      (fun a b =>
        (containsS (lowerS b.number) (lowerS keyword) = true →
          containsS (lowerS a.number) (lowerS keyword) = true) ∧
        ¬(a.number = "" ∧ b.number ≠ "") ∧
        ((containsS (lowerS a.number) (lowerS keyword) =
            containsS (lowerS b.number) (lowerS keyword) ∧
          (a.number = "" ↔ b.number = "")) →
          charsLe (lowerChars a.number.data) (lowerChars b.number.data) = true)) ∧
    (∀ (l : List Payload) (a b : Payload), sortKey keyword a = sortKey keyword b →
      List.Sublist [a, b] l → List.Sublist [a, b] (l.mergeSort (payloadLe keyword))) := by
  have htr : ∀ (a b c : Payload), payloadLe keyword a b → payloadLe keyword b c →
      payloadLe keyword a c := fun a b c h1 h2 => payloadLe_trans keyword a b c h1 h2
  have hto : ∀ (a b : Payload), payloadLe keyword a b || payloadLe keyword b a :=
    payloadLe_total keyword
  unfold execute_search
  constructor
  · have hp := List.sorted_mergeSort htr hto
      (globalDedup (rawResults store tables batch_size q) [])
    exact List.Pairwise.imp (fun h => payloadLe_claim hk _ _ h) hp
  · intro l a b hkey hsub
    apply List.pair_sublist_mergeSort htr hto ?_ hsub
    show payloadLe keyword a b = true
    unfold payloadLe
    rw [hkey]
    exact keyLe_refl _

/-- C3 witness: the sort law applied at keyword `"a"` on the
empty-success store. -/
theorem sort_law_witness :
    ("a" : String) ≠ "" ∧
    ((execute_search emptyStore ["t1"] 4 "a" 1 (build_query "a") "fuzzy").Pairwise
      (fun a b =>
        (containsS (lowerS b.number) (lowerS "a") = true →
          containsS (lowerS a.number) (lowerS "a") = true) ∧
        ¬(a.number = "" ∧ b.number ≠ "") ∧
        ((containsS (lowerS a.number) (lowerS "a") =
            containsS (lowerS b.number) (lowerS "a") ∧
          (a.number = "" ↔ b.number = "")) →
          charsLe (lowerChars a.number.data) (lowerChars b.number.data) = true)) ∧
    (∀ (l : List Payload) (a b : Payload), sortKey "a" a = sortKey "a" b →
      List.Sublist [a, b] l → List.Sublist [a, b] (l.mergeSort (payloadLe "a")))) :=
  ⟨by decide,
   sort_law emptyStore ["t1"] 4 "a" 1 (build_query "a") "fuzzy" (by decide)⟩

end BtSearch
